import Mathlib

/-!
Shallow embedding of the helios-build IPS manifest parser
(tools/helios-build/src/ips.rs) and of the zone lifecycle pieces of
tools/helios-build/src/illumos.rs, for checking the specification claims.

Rust `Result<T>` becomes `Except String T`; the `&mut self` accessors of
`Vals` become functions returning the result together with the updated bag;
machine iteration over `input.lines()` becomes an explicit split function
with the exact semantics of Rust `str::lines`.
-/

deriving instance DecidableEq for Except

namespace Helios

/-- Error/success outcome test for `Except`. -/
def isErrB {α : Type} : Except String α → Bool
  | .error _ => true
  | .ok _ => false

/-- `DependType` from ips.rs. -/
inductive DependType where
  | Incorporate
  | Require
  | RequireAny
  | Group
  | GroupAny
  | Optional
  | Conditional
deriving DecidableEq, Repr

/-- `impl TryFrom<&str> for DependType` from ips.rs: the fixed string
vocabulary; any other string is an error. -/
def dependTypeOfString (s : String) : Except String DependType :=
  if s = "incorporate" then .ok .Incorporate
  else if s = "require" then .ok .Require
  else if s = "require-any" then .ok .RequireAny
  else if s = "group" then .ok .Group
  else if s = "group-any" then .ok .GroupAny
  else if s = "optional" then .ok .Optional
  else if s = "conditional" then .ok .Conditional
  else .error ("unknown depend type " ++ s)

/-- Insertion into the `extra` tracking set (`BTreeSet<String>` in the
source): a set, so inserting a present key changes nothing. -/
def setInsert (s : List String) (k : String) : List String :=
  if k ∈ s then s else s ++ [k]

/-- `Vals` from ips.rs: ordered key/value list plus the set of keys not yet
consumed by a typed accessor. -/
structure Vals where
  vals : List (String × String)
  extra : List String
deriving DecidableEq, Repr

/-- `Vals::new`. -/
def Vals.new : Vals := ⟨[], []⟩

/-- Rust `str::starts_with` on character lists (structural, so that it
evaluates). -/
def beginsWith : List Char → List Char → Bool
  | [], _ => true
  | _ :: _, [] => false
  | p :: ps, c :: cs => p = c && beginsWith ps cs

/-- `Vals::insert`: keys beginning with `facet.` are dropped
unconditionally; any other key is appended to the value list and recorded
in the unconsumed tracking set. -/
def Vals.insert (b : Vals) (key value : String) : Vals :=
  if beginsWith "facet.".data key.data then b
  else { vals := b.vals ++ [(key, value)], extra := setInsert b.extra key }

/-- The scanning loop of `Vals::maybe_single`: at most one value for the
key, error on a second occurrence. -/
def singleLoop (name : String) : List (String × String) → Option String →
    Except String (Option String)
  | [], out => .ok out
  | (k, v) :: rest, out =>
      if k = name then
        if out.isSome then
          .error ("more than one value for " ++ name ++ ", wanted a single value")
        else
          singleLoop name rest (some v)
      else
        singleLoop name rest out

/-- `Vals::maybe_single`: returns the at-most-one value for `name` and
removes `name` from the unconsumed set. -/
def Vals.maybe_single (b : Vals) (name : String) :
    Except String (Option String × Vals) :=
  match singleLoop name b.vals none with
  | .error e => .error e
  | .ok out => .ok (out, { b with extra := b.extra.filter (· ≠ name) })

/-- `Vals::single`: exactly one value for `name`. -/
def Vals.single (b : Vals) (name : String) : Except String (String × Vals) :=
  match b.maybe_single name with
  | .error e => .error e
  | .ok (some out, b) => .ok (out, b)
  | .ok (none, _) => .error ("no values for " ++ name ++ " found")

/-- `Vals::maybe_list`: all values for `name`, in order; removes `name`
from the unconsumed set; never fails. -/
def Vals.maybe_list (b : Vals) (name : String) :
    Except String (List String × Vals) :=
  .ok (b.vals.filterMap (fun p => if p.1 = name then some p.2 else none),
       { b with extra := b.extra.filter (· ≠ name) })

/-- `Vals::list`: at least one value for `name`. -/
def Vals.list (b : Vals) (name : String) :
    Except String (List String × Vals) :=
  match b.maybe_list name with
  | .error e => .error e
  | .ok (out, b) =>
      if out.isEmpty then
        .error ("wanted at least one value for " ++ name ++ ", found none")
      else .ok (out, b)

/-- `Vals::check_for_extra`: succeeds exactly when every key present in the
bag has been consumed. -/
def Vals.check_for_extra (b : Vals) : Except String Unit :=
  if b.extra.isEmpty then .ok () else
    .error "some properties present but not consumed"

/-- `ActionDepend` from ips.rs. -/
structure ActionDepend where
  fmri : List String
  type_ : DependType
  predicate : List String
  variant_zone : Option String
deriving DecidableEq, Repr

/-- `Action` from ips.rs. -/
inductive Action where
  | Depend (d : ActionDepend)
  | Unknown (a : String) (free : List String) (vals : Vals)
deriving DecidableEq, Repr

/-- `ParseState` from ips.rs. -/
inductive ParseState where
  | Rest
  | Type
  | Key
  | Value
  | ValueQuoted
  | ValueQuotedSpace
  | ValueUnquoted
deriving DecidableEq, Repr

/-- The per-line mutable state of `parse_manifest`'s character loop:
parse state, action-type accumulator `a`, key accumulator `k`, value
accumulator `v`, the property bag, the free tokens, and the recorded
opening quote character. -/
structure LineSt where
  s : ParseState
  a : List Char
  k : List Char
  v : List Char
  vals : Vals
  free : List String
  quote : Char
deriving DecidableEq, Repr

/-- Initial per-line state (`quote` starts as a double quote in the
source). -/
def initSt : LineSt :=
  { s := .Rest, a := [], k := [], v := [], vals := Vals.new, free := [],
    quote := '"' }

/-- Whether a character may extend a key token (`ParseState::Key` branch). -/
def isKeyChar (c : Char) : Bool :=
  c.isAlphanum || c = '.' || c = '-' || c = '_' || c = '/' || c = '@'

/-- One step of the character state machine of `parse_manifest`. -/
def lineStep (st : LineSt) (c : Char) : Except String LineSt :=
  match st.s with
  | .Rest =>
      if c.isAlpha then
        .ok { st with a := [c], k := [], v := [], s := .Type }
      else .error "invalid line (Rest)"
  | .Type =>
      if c.isAlpha then .ok { st with a := st.a ++ [c] }
      else if c = ' ' then .ok { st with s := .Key }
      else .error "invalid line (Type)"
  | .Key =>
      if isKeyChar c then .ok { st with k := st.k ++ [c] }
      else if c = ' ' then
        .ok { st with free := st.free ++ [String.mk st.k], k := [] }
      else if c = '=' then .ok { st with s := .Value }
      else .error "invalid line (Key)"
  | .Value =>
      if c = '"' || c = '\'' then
        .ok { st with v := [], quote := c, s := .ValueQuoted }
      else .ok { st with v := [c], s := .ValueUnquoted }
  | .ValueQuoted =>
      if c = '\\' then .error "invalid line (backslash)"
      else if c = st.quote then .ok { st with s := .ValueQuotedSpace }
      else .ok { st with v := st.v ++ [c] }
  | .ValueQuotedSpace =>
      if c = ' ' then
        .ok { st with vals := st.vals.insert (String.mk st.k) (String.mk st.v),
                      s := .Key, k := [] }
      else .error "invalid after quote"
  | .ValueUnquoted =>
      if c = '"' || c = '\'' then .error "invalid line (errant quote)"
      else if c = ' ' then
        .ok { st with vals := st.vals.insert (String.mk st.k) (String.mk st.v),
                      s := .Key, k := [] }
      else .ok { st with v := st.v ++ [c] }

/-- Run the character state machine over the characters of one line. -/
def runLine (st : LineSt) : List Char → Except String LineSt
  | [] => .ok st
  | c :: cs =>
      match lineStep st c with
      | .error e => .error e
      | .ok st' => runLine st' cs

/-- The terminal-state match at the end of a line: a line may only end in
`ValueQuotedSpace`, `ValueUnquoted` (a final key/value pair is then
committed) or `Type` (a bare action type); any other terminal state is an
error. -/
def lineFinish (st : LineSt) : Except String LineSt :=
  match st.s with
  | .ValueQuotedSpace =>
      .ok { st with vals := st.vals.insert (String.mk st.k) (String.mk st.v) }
  | .ValueUnquoted =>
      .ok { st with vals := st.vals.insert (String.mk st.k) (String.mk st.v) }
  | .Type => .ok st
  | _ => .error "invalid line (terminal state)"

/-- The `depend` branch of `parse_manifest`'s action dispatch: the typed
accessor sequence followed by the unconsumed-property check. -/
def interpDepend (b : Vals) : Except String ActionDepend :=
  match b.list "fmri" with
  | .error e => .error e
  | .ok (fmri, b) =>
  match b.single "type" with
  | .error e => .error e
  | .ok (ts, b) =>
  match dependTypeOfString ts with
  | .error e => .error e
  | .ok ty =>
  match b.maybe_list "predicate" with
  | .error e => .error e
  | .ok (predicate, b) =>
  match b.maybe_single "variant.opensolaris.zone" with
  | .error e => .error e
  | .ok (variant_zone, b) =>
  match b.check_for_extra with
  | .error e => .error e
  | .ok _ => .ok ⟨fmri, ty, predicate, variant_zone⟩

/-- The action dispatch of `parse_manifest`: `depend` is interpreted
strictly, every other action type is captured generically. -/
def interpAction (a : String) (free : List String) (b : Vals) :
    Except String Action :=
  if a = "depend" then
    match interpDepend b with
    | .error e => .error e
    | .ok d => .ok (.Depend d)
  else .ok (.Unknown a free b)

/-- Parse one line of a manifest: run the machine, apply the terminal-state
match, dispatch the action. -/
def parseLineAction (lc : List Char) : Except String Action :=
  match runLine initSt lc with
  | .error e => .error e
  | .ok st =>
  match lineFinish st with
  | .error e => .error e
  | .ok st => interpAction (String.mk st.a) st.free st.vals

/-- Strip one trailing carriage return (Rust `str::lines` removes a `\r`
that immediately precedes the terminating `\n`). -/
def stripTrailingCr (l : List Char) : List Char :=
  match l.getLast? with
  | some c => if c = '\r' then l.dropLast else l
  | none => l

/-- Worker for `rustLines`; `acc` holds the current line reversed. -/
def rustLinesAux (acc : List Char) : List Char → List (List Char)
  | [] => if acc.isEmpty then [] else [acc.reverse]
  | c :: cs =>
      if c = '\n' then stripTrailingCr acc.reverse :: rustLinesAux [] cs
      else rustLinesAux (c :: acc) cs

/-- Rust `str::lines`: lines split at `\n` (a preceding `\r` is stripped),
a final unterminated line counts, the empty string has no lines, and a
lone trailing `\r` with no newline is kept. -/
def rustLines (s : List Char) : List (List Char) := rustLinesAux [] s

/-- Error-propagating map, the shape of `parse_manifest`'s line loop: each
element is processed in order and the first failure aborts the whole
computation with that error. -/
def mapExcept {α β : Type} (f : α → Except String β) :
    List α → Except String (List β)
  | [] => .ok []
  | x :: xs =>
      match f x with
      | .error e => .error e
      | .ok y =>
          match mapExcept f xs with
          | .error e => .error e
          | .ok ys => .ok (y :: ys)

/-- `parse_manifest` from ips.rs: one action per line, all-or-nothing. -/
def parse_manifest (input : String) : Except String (List Action) :=
  mapExcept parseLineAction (rustLines input.data)

/-- The four teardown operations of illumos.rs (`zone_unmount`,
`zone_halt`, `zone_uninstall`, `zone_delete`), each a thin wrapper around
a zone administration command. -/
inductive ZoneAction where
  | unmount
  | halt
  | uninstall
  | delete
deriving DecidableEq, Repr

/-- Modelled from the spec: the five sandbox lifecycle states of the zone
state machine (the teardown driver that consumes `zone_list` and the
teardown wrappers is not part of the vendored sources; illumos.rs reports
the state only as the string field `Zone.state`). -/
inductive ZoneState where
  | configured
  | incomplete
  | installed
  | mounted
  | running
deriving DecidableEq, Repr

/-- Modelled from the spec: parsing the externally reported state string
at the boundary; a sandbox found in any state outside the five-state
table is a fatal error rather than a guessed recovery. -/
def zoneStateOfString (s : String) : Except String ZoneState :=
  if s = "configured" then .ok .configured
  else if s = "incomplete" then .ok .incomplete
  else if s = "installed" then .ok .installed
  else if s = "mounted" then .ok .mounted
  else if s = "running" then .ok .running
  else .error ("unexpected zone state " ++ s)

/-- Modelled from the spec: the state→required-teardown-actions table
applied before each build to drive an existing sandbox to absent. -/
def teardownActions : ZoneState → List ZoneAction
  | .mounted => [.unmount, .halt, .uninstall, .delete]
  | .running => [.halt, .uninstall, .delete]
  | .installed => [.uninstall, .delete]
  | .incomplete => [.uninstall, .delete]
  | .configured => [.delete]

/-- Modelled from the spec: the effect of one teardown action on a
present (`some state`) or absent (`none`) sandbox, following the spec's
transitions `Running -halt-> Installed`, `Mounted -unmount-> Installed`,
`Installed|Incomplete -uninstall-> Configured`,
`Configured -delete-> absent`; halting a sandbox that is already merely
installed is accepted and leaves it installed (the zone admin halt is a
no-op there), which the spec's own table relies on when it applies halt
to a Mounted sandbox after unmount. -/
def applyZoneAction : Option ZoneState → ZoneAction →
    Except String (Option ZoneState)
  | some .mounted, .unmount => .ok (some .installed)
  | some .running, .halt => .ok (some .installed)
  | some .installed, .halt => .ok (some .installed)
  | some .installed, .uninstall => .ok (some .configured)
  | some .incomplete, .uninstall => .ok (some .configured)
  | some .configured, .delete => .ok none
  | _, _ => .error "zone action not applicable in this state"

/-- Apply a list of teardown actions in order. -/
def runTeardown (st : Option ZoneState) :
    List ZoneAction → Except String (Option ZoneState)
  | [] => .ok st
  | a :: rest =>
      match applyZoneAction st a with
      | .error e => .error e
      | .ok st' => runTeardown st' rest

/-- Outcome of one poll of the named service inside
`zone_milestone_wait` (illumos.rs): either the command invocation itself
failed (`cmdErr` — the `if let Ok(out)` falls through to the sleep), or
it produced output lines, each already split into whitespace tokens. -/
inductive PollResult where
  | cmdErr
  | output (lines : List (List String))
deriving DecidableEq, Repr

/-- The `t[0] == "ON" && t[1] == "-"` test on the single output line,
with Rust's panic on an out-of-bounds index modelled as an error; `&&`
short-circuits, so a one-token line only panics when that token is
"ON". -/
def checkLine : List String → Except String Bool
  | [] => .error "panic: index out of bounds"
  | [a] => if a = "ON" then .error "panic: index out of bounds" else .ok false
  | a :: b :: _ => .ok (a == "ON" && b == "-")

/-- What one loop iteration of `zone_milestone_wait` decides from a poll:
succeed (break), fail the whole call, or try again after sleeping. -/
inductive StepRes where
  | success
  | fatal (e : String)
  | retry
deriving DecidableEq, Repr

/-- One iteration of the `zone_milestone_wait` loop: a command error is
retried; no output lines is retried; exactly one line is tested with
`checkLine`; more than one line is a fatal error. -/
def waitStep : PollResult → StepRes
  | .cmdErr => .retry
  | .output [] => .retry
  | .output [t] =>
      match checkLine t with
      | .error e => .fatal e
      | .ok true => .success
      | .ok false => .retry
  | .output (_ :: _ :: _) => .fatal "unexpected output"

/-- Observable events of the wait loop: a poll of the service, or a call
of `sleep(n)` from common.rs (`n` in seconds). -/
inductive WaitEvent where
  | poll
  | sleepSec (n : Nat)
deriving DecidableEq, Repr

/-- Run `zone_milestone_wait` against a finite trace of poll outcomes:
returns the call's result (`none` when the trace is exhausted with the
loop still running — the loop itself has no bound) and the emitted
poll/sleep events. Every retry sleeps exactly one second before the next
poll, mirroring `sleep(1)`. -/
def waitRun : List PollResult → Option (Except String Unit) × List WaitEvent
  | [] => (none, [])
  | p :: rest =>
      match waitStep p with
      | .success => (some (.ok ()), [.poll])
      | .fatal e => (some (.error e), [.poll])
      | .retry =>
          let r := waitRun rest
          (r.1, .poll :: .sleepSec 1 :: r.2)

/-- The event sequence of `n` unsuccessful polls, each followed by a
one-second sleep. -/
def pollSleepEvents : Nat → List WaitEvent
  | 0 => []
  | n + 1 => .poll :: .sleepSec 1 :: pollSleepEvents n

end Helios

namespace Helios

/-! ### Helper lemmas -/

theorem isErrB_iff {α : Type} (x : Except String α) :
    isErrB x = true ↔ ∃ e, x = .error e := by
  cases x <;> simp [isErrB]

theorem mapExcept_ok_length {α β : Type} (f : α → Except String β)
    (l : List α) (r : List β) (h : mapExcept f l = .ok r) :
    r.length = l.length := by
  induction l generalizing r with
  | nil =>
      simp only [mapExcept] at h
      cases h
      rfl
  | cons x xs ih =>
      simp only [mapExcept] at h
      cases hf : f x with
      | error e => rw [hf] at h; cases h
      | ok y =>
          rw [hf] at h
          cases hm : mapExcept f xs with
          | error e => rw [hm] at h; cases h
          | ok ys =>
              rw [hm] at h
              cases h
              simp [ih ys hm]

theorem mapExcept_ok_get {α β : Type} (f : α → Except String β)
    (l : List α) (r : List β) (h : mapExcept f l = .ok r) :
    ∀ (i : Nat) (x : α), l[i]? = some x →
      ∃ y, r[i]? = some y ∧ f x = .ok y := by
  induction l generalizing r with
  | nil => intro i x hx; simp at hx
  | cons hd tl ih =>
      intro i x hx
      simp only [mapExcept] at h
      cases hf : f hd with
      | error e => rw [hf] at h; cases h
      | ok y =>
          rw [hf] at h
          cases hm : mapExcept f tl with
          | error e => rw [hm] at h; cases h
          | ok ys =>
              rw [hm] at h
              cases h
              cases i with
              | zero =>
                  simp at hx
                  subst hx
                  exact ⟨y, by simp, hf⟩
              | succ j =>
                  simp at hx
                  obtain ⟨z, hz, hfz⟩ := ih ys hm j x hx
                  exact ⟨z, by simpa using hz, hfz⟩

theorem mapExcept_mem_error {α β : Type} (f : α → Except String β)
    (l : List α) (x : α) (hx : x ∈ l) (hf : isErrB (f x) = true) :
    isErrB (mapExcept f l) = true := by
  induction l with
  | nil => cases hx
  | cons hd tl ih =>
      simp only [mapExcept]
      cases hh : f hd with
      | error e => simp [isErrB]
      | ok y =>
          rcases List.mem_cons.mp hx with h | h
          · subst h; rw [hh] at hf; simp [isErrB] at hf
          · have htl := ih h
            cases hm : mapExcept f tl with
            | error e => simp [isErrB]
            | ok ys => rw [hm] at htl; simp [isErrB] at htl

theorem runLine_append (xs ys : List Char) (st : LineSt) :
    runLine st (xs ++ ys) =
      match runLine st xs with
      | .error e => .error e
      | .ok st' => runLine st' ys := by
  induction xs generalizing st with
  | nil => simp [runLine]
  | cons c cs ih =>
      simp only [List.cons_append, runLine]
      cases lineStep st c with
      | error e => rfl
      | ok st' => exact ih st'

theorem runLine_key_accum (w : List Char) (hw : ∀ c ∈ w, isKeyChar c = true)
    (a k v : List Char) (b : Vals) (free : List String) (q : Char) :
    runLine ⟨.Key, a, k, v, b, free, q⟩ w =
      .ok ⟨.Key, a, k ++ w, v, b, free, q⟩ := by
  induction w generalizing k with
  | nil => simp [runLine]
  | cons c cs ih =>
      have hc : isKeyChar c = true := hw c (by simp)
      have hcs : ∀ x ∈ cs, isKeyChar x = true :=
        fun x hx => hw x (by simp [hx])
      simp only [runLine, lineStep, hc, if_true]
      rw [ih hcs (k ++ [c])]
      simp

theorem runLine_quoted_accum (w : List Char) (q : Char)
    (hw : ∀ c ∈ w, c ≠ '\\' ∧ c ≠ q)
    (a k v : List Char) (b : Vals) (free : List String) :
    runLine ⟨.ValueQuoted, a, k, v, b, free, q⟩ w =
      .ok ⟨.ValueQuoted, a, k, v ++ w, b, free, q⟩ := by
  induction w generalizing v with
  | nil => simp [runLine]
  | cons c cs ih =>
      have hc := hw c (by simp)
      have hcs : ∀ x ∈ cs, x ≠ '\\' ∧ x ≠ q :=
        fun x hx => hw x (by simp [hx])
      simp only [runLine, lineStep, hc.1, hc.2, if_false, if_neg hc.1,
        if_neg hc.2]
      rw [ih hcs (v ++ [c])]
      simp

theorem singleLoop_ok_count (name : String) (l : List (String × String))
    (acc out : Option String) (h : singleLoop name l acc = .ok out) :
    l.countP (fun p => p.1 == name) + (if acc.isSome then 1 else 0) =
      (if out.isSome then 1 else 0) := by
  induction l generalizing acc with
  | nil =>
      simp only [singleLoop] at h
      cases h
      simp
  | cons hd tl ih =>
      simp only [singleLoop] at h
      by_cases hk : hd.1 = name
      · rw [if_pos hk] at h
        cases hacc : acc with
        | some s => rw [hacc] at h; simp at h
        | none =>
            rw [hacc] at h
            simp only [Option.isSome_none, Bool.false_eq_true, if_false] at h ⊢
            have := ih (some hd.2) (by simpa using h)
            simp only [Option.isSome_some, if_true] at this
            rw [List.countP_cons]
            simp [hk, this]
      · rw [if_neg hk] at h
        have := ih acc h
        rw [List.countP_cons]
        simp [hk]
        omega

theorem maybe_single_ok (b : Vals) (name : String)
    (r : Option String × Vals) (h : b.maybe_single name = .ok r) :
    b.vals.countP (fun p => p.1 == name) = (if r.1.isSome then 1 else 0) ∧
      r.2.vals = b.vals ∧ r.2.extra = b.extra.filter (· ≠ name) := by
  unfold Vals.maybe_single at h
  cases hs : singleLoop name b.vals none with
  | error e => rw [hs] at h; cases h
  | ok out =>
      rw [hs] at h
      cases h
      have := singleLoop_ok_count name b.vals none out hs
      simpa using this

theorem single_ok (b : Vals) (name : String) (r : String × Vals)
    (h : b.single name = .ok r) :
    b.vals.countP (fun p => p.1 == name) = 1 ∧
      r.2.vals = b.vals ∧ r.2.extra = b.extra.filter (· ≠ name) := by
  unfold Vals.single at h
  cases hm : b.maybe_single name with
  | error e => rw [hm] at h; cases h
  | ok p =>
      rw [hm] at h
      obtain ⟨out, b'⟩ := p
      cases out with
      | none => cases h
      | some s =>
          cases h
          have := maybe_single_ok b name (some s, b') hm
          simpa using this

theorem maybe_list_ok (b : Vals) (name : String)
    (r : List String × Vals) (h : b.maybe_list name = .ok r) :
    r.1.length = b.vals.countP (fun p => p.1 == name) ∧
      r.2.vals = b.vals ∧ r.2.extra = b.extra.filter (· ≠ name) := by
  unfold Vals.maybe_list at h
  cases h
  refine ⟨?_, rfl, rfl⟩
  induction b.vals with
  | nil => simp
  | cons hd tl ih =>
      by_cases hk : hd.1 = name
      · simp [List.countP_cons, hk, ih]
      · simp [List.countP_cons, hk, ih]

theorem list_ok (b : Vals) (name : String) (r : List String × Vals)
    (h : b.list name = .ok r) :
    1 ≤ b.vals.countP (fun p => p.1 == name) ∧
      r.2.vals = b.vals ∧ r.2.extra = b.extra.filter (· ≠ name) := by
  unfold Vals.list at h
  split at h
  · cases h
  · rename_i out b' hm
    split at h
    · cases h
    · rename_i hne
      cases h
      obtain ⟨hlen, hv, hx⟩ := maybe_list_ok b name (out, b') hm
      refine ⟨?_, hv, hx⟩
      rw [← hlen]
      rcases out with _ | ⟨y, ys⟩
      · simp at hne
      · simp

theorem check_for_extra_ok (b : Vals) (u : Unit)
    (h : b.check_for_extra = .ok u) : b.extra = [] := by
  unfold Vals.check_for_extra at h
  by_cases he : b.extra.isEmpty
  · exact List.isEmpty_iff.mp he
  · rw [if_neg he] at h; cases h

/-! ### Claim theorems -/

/-- C3: converting a string to a `DependType` succeeds for exactly the
seven strings of the fixed vocabulary, yielding the respective
constructors, and fails for every other string. -/
theorem claim_C3 :
    dependTypeOfString "incorporate" = .ok .Incorporate ∧
    dependTypeOfString "require" = .ok .Require ∧
    dependTypeOfString "require-any" = .ok .RequireAny ∧
    dependTypeOfString "group" = .ok .Group ∧
    dependTypeOfString "group-any" = .ok .GroupAny ∧
    dependTypeOfString "optional" = .ok .Optional ∧
    dependTypeOfString "conditional" = .ok .Conditional ∧
    ∀ s : String,
      s ∉ (["incorporate", "require", "require-any", "group", "group-any",
            "optional", "conditional"] : List String) →
      isErrB (dependTypeOfString s) = true := by
  refine ⟨by decide, by decide, by decide, by decide, by decide, by decide,
    by decide, ?_⟩
  intro s hs
  simp only [List.mem_cons, List.not_mem_nil, or_false, not_or] at hs
  obtain ⟨h1, h2, h3, h4, h5, h6, h7⟩ := hs
  simp [dependTypeOfString, h1, h2, h3, h4, h5, h6, h7, isErrB]

theorem claim_C3_witness : isErrB (dependTypeOfString "frobnicate") = true :=
  claim_C3.2.2.2.2.2.2.2 "frobnicate" (by decide)

/-- C4: for each of the five sandbox lifecycle states, the teardown
action set computed from the state→required-actions table, applied in
order, leaves the sandbox absent; the table is exactly the one claimed;
and a state string outside the table is a fatal error. -/
theorem claim_C4 :
    (∀ st : ZoneState,
        runTeardown (some st) (teardownActions st) = .ok none) ∧
    teardownActions .mounted = [.unmount, .halt, .uninstall, .delete] ∧
    teardownActions .running = [.halt, .uninstall, .delete] ∧
    teardownActions .installed = [.uninstall, .delete] ∧
    teardownActions .incomplete = [.uninstall, .delete] ∧
    teardownActions .configured = [.delete] ∧
    ∀ s : String,
      s ∉ (["configured", "incomplete", "installed", "mounted",
            "running"] : List String) →
      isErrB (zoneStateOfString s) = true := by
  refine ⟨?_, rfl, rfl, rfl, rfl, rfl, ?_⟩
  · intro st; cases st <;> decide
  · intro s hs
    simp only [List.mem_cons, List.not_mem_nil, or_false, not_or] at hs
    obtain ⟨h1, h2, h3, h4, h5⟩ := hs
    simp [zoneStateOfString, h1, h2, h3, h4, h5, isErrB]

theorem claim_C4_witness :
    runTeardown (some .mounted) (teardownActions .mounted) = .ok none ∧
    isErrB (zoneStateOfString "down") = true :=
  ⟨claim_C4.1 .mounted, claim_C4.2.2.2.2.2.2 "down" (by decide)⟩

/-- C5: the property bag's closed-world consumption invariant: every
non-`facet.` key inserted is recorded in the value list and the
unconsumed tracking set; each of the four typed accessors removes the
read key from that set; and `check_for_extra` succeeds exactly when the
tracking set is empty. -/
theorem claim_C5 :
    (∀ (b : Vals) (k v : String), beginsWith "facet.".data k.data = false →
        (b.insert k v).vals = b.vals ++ [(k, v)] ∧
        k ∈ (b.insert k v).extra) ∧
    (∀ (b : Vals) (name : String) (r : Option String × Vals),
        b.maybe_single name = .ok r →
        name ∉ r.2.extra ∧ r.2.extra = b.extra.filter (· ≠ name)) ∧
    (∀ (b : Vals) (name : String) (r : String × Vals),
        b.single name = .ok r → name ∉ r.2.extra) ∧
    (∀ (b : Vals) (name : String) (r : List String × Vals),
        b.maybe_list name = .ok r → name ∉ r.2.extra) ∧
    (∀ (b : Vals) (name : String) (r : List String × Vals),
        b.list name = .ok r → name ∉ r.2.extra) ∧
    (∀ b : Vals, b.check_for_extra = .ok () ↔ b.extra = []) := by
  refine ⟨?_, ?_, ?_, ?_, ?_, ?_⟩
  · intro b k v hk
    refine ⟨by simp [Vals.insert, hk], ?_⟩
    simp only [Vals.insert, hk, Bool.false_eq_true, if_false, setInsert]
    by_cases hmem : k ∈ b.extra
    · simp [hmem]
    · simp [hmem]
  · intro b name r h
    obtain ⟨-, -, hx⟩ := maybe_single_ok b name r h
    refine ⟨?_, hx⟩
    rw [hx]
    simp [List.mem_filter]
  · intro b name r h
    obtain ⟨-, -, hx⟩ := single_ok b name r h
    rw [hx]
    simp [List.mem_filter]
  · intro b name r h
    obtain ⟨-, -, hx⟩ := maybe_list_ok b name r h
    rw [hx]
    simp [List.mem_filter]
  · intro b name r h
    obtain ⟨-, -, hx⟩ := list_ok b name r h
    rw [hx]
    simp [List.mem_filter]
  · intro b
    constructor
    · exact check_for_extra_ok b ()
    · intro h
      simp [Vals.check_for_extra, h]

theorem claim_C5_witness :
    ((Vals.new.insert "k" "v").vals = Vals.new.vals ++ [("k", "v")] ∧
      "k" ∈ (Vals.new.insert "k" "v").extra) ∧
    "type" ∉ ((some "require", (⟨[("type", "require")], []⟩ : Vals)) :
        Option String × Vals).2.extra ∧
    (Vals.new.check_for_extra = .ok () ↔ Vals.new.extra = []) :=
  ⟨claim_C5.1 Vals.new "k" "v" (by decide),
   (claim_C5.2.1 ⟨[("type", "require")], ["type"]⟩ "type"
      (some "require", ⟨[("type", "require")], []⟩) (by decide)).1,
   claim_C5.2.2.2.2.2 Vals.new⟩

/-- C9: inserting a `facet.`-prefixed key leaves the property bag
completely unchanged, and a `facet.` property on a depend line neither
trips the unconsumed-property check nor shows up in the parsed action. -/
theorem claim_C9 :
    (∀ (b : Vals) (k v : String), beginsWith "facet.".data k.data = true →
        b.insert k v = b) ∧
    parse_manifest "depend type=require fmri=pkg:/x facet.a=1" =
      .ok [.Depend ⟨["pkg:/x"], .Require, [], none⟩] := by
  constructor
  · intro b k v hk
    simp [Vals.insert, hk]
  · decide

theorem claim_C9_witness :
    Vals.insert ⟨[("fmri", "x")], ["fmri"]⟩ "facet.a" "1" =
      ⟨[("fmri", "x")], ["fmri"]⟩ :=
  claim_C9.1 ⟨[("fmri", "x")], ["fmri"]⟩ "facet.a" "1" (by decide)

/-- C10: every manifest line must begin with an ASCII alphabetic
character — an empty line, or one starting with any other character,
fails the whole parse — while the empty input has zero lines and parses
to the empty action list. -/
theorem claim_C10 :
    (∀ (input : String) (lc : List Char), lc ∈ rustLines input.data →
        (∀ c, lc.head? = some c → c.isAlpha = false) →
        isErrB (parse_manifest input) = true) ∧
    parse_manifest "" = .ok [] ∧
    isErrB (parse_manifest "a b=1\n\nc d=2") = true := by
  refine ⟨?_, by decide, by decide⟩
  intro input lc hmem hhead
  apply mapExcept_mem_error parseLineAction _ lc hmem
  rcases lc with _ | ⟨c, cs⟩
  · decide
  · have hc : c.isAlpha = false := hhead c rfl
    simp [parseLineAction, runLine, lineStep, initSt, hc, isErrB]

theorem claim_C10_witness :
    isErrB (parse_manifest "a b=1\n\nc d=2") = true ∧
    parse_manifest "" = .ok [] :=
  ⟨claim_C10.1 "a b=1\n\nc d=2" [] (by decide) (fun c h => by simp at h),
   claim_C10.2.1⟩

/-- C1: interpreting a `depend` line succeeds only when the bag carries at
least one `fmri`, exactly one `type`, and at most one
`variant.opensolaris.zone`, and every key awaiting consumption is one of
the four recognized property names; concretely, an extra property such as
`extra=1` fails the whole parse, while the optional properties may be
absent or present. -/
theorem claim_C1 :
    (∀ (b : Vals) (d : ActionDepend), interpDepend b = .ok d →
        1 ≤ b.vals.countP (fun p => p.1 == "fmri") ∧
        b.vals.countP (fun p => p.1 == "type") = 1 ∧
        b.vals.countP (fun p => p.1 == "variant.opensolaris.zone") ≤ 1 ∧
        ∀ k ∈ b.extra,
          k = "fmri" ∨ k = "type" ∨ k = "predicate" ∨
            k = "variant.opensolaris.zone") ∧
    isErrB (parse_manifest "depend type=require fmri=pkg:/x extra=1") = true ∧
    parse_manifest "depend type=require fmri=pkg:/x" =
      .ok [.Depend ⟨["pkg:/x"], .Require, [], none⟩] ∧
    parse_manifest
        "depend type=require fmri=pkg:/x fmri=pkg:/y predicate=p variant.opensolaris.zone=global" =
      .ok [.Depend ⟨["pkg:/x", "pkg:/y"], .Require, ["p"], some "global"⟩] := by
  refine ⟨?_, by decide, by decide, by decide⟩
  intro b d h
  unfold interpDepend at h
  split at h
  · cases h
  · rename_i fmri b1 h1
    split at h
    · cases h
    · rename_i ts b2 h2
      split at h
      · cases h
      · rename_i ty h3
        split at h
        · cases h
        · rename_i predicate b3 h4
          split at h
          · cases h
          · rename_i vz b4 h5
            split at h
            · cases h
            · rename_i u h6
              obtain ⟨hc1, hv1, hx1⟩ := list_ok b "fmri" (fmri, b1) h1
              obtain ⟨hc2, hv2, hx2⟩ := single_ok b1 "type" (ts, b2) h2
              obtain ⟨hc4, hv4, hx4⟩ :=
                maybe_list_ok b2 "predicate" (predicate, b3) h4
              obtain ⟨hc5, hv5, hx5⟩ :=
                maybe_single_ok b3 "variant.opensolaris.zone" (vz, b4) h5
              have hempty := check_for_extra_ok b4 u h6
              refine ⟨hc1, ?_, ?_, ?_⟩
              · rw [hv1] at hc2; exact hc2
              · rw [hv4, hv2, hv1] at hc5
                rw [hc5]
                cases vz <;> simp
              · intro k hk
                by_contra hcon
                push_neg at hcon
                obtain ⟨hn1, hn2, hn3, hn4⟩ := hcon
                have hmem : k ∈ b4.extra := by
                  rw [hx5, hx4, hx2, hx1]
                  simp only [List.mem_filter, decide_eq_true_eq]
                  exact ⟨⟨⟨⟨hk, hn1⟩, hn2⟩, hn3⟩, hn4⟩
                rw [hempty] at hmem
                cases hmem

theorem claim_C1_witness :
    (1 ≤ (Vals.mk [("fmri", "pkg:/x"), ("type", "require")]
        ["fmri", "type"]).vals.countP (fun p => p.1 == "fmri") ∧
      (Vals.mk [("fmri", "pkg:/x"), ("type", "require")]
        ["fmri", "type"]).vals.countP (fun p => p.1 == "type") = 1 ∧
      (Vals.mk [("fmri", "pkg:/x"), ("type", "require")]
        ["fmri", "type"]).vals.countP
          (fun p => p.1 == "variant.opensolaris.zone") ≤ 1 ∧
      ∀ k ∈ (Vals.mk [("fmri", "pkg:/x"), ("type", "require")]
          ["fmri", "type"]).extra,
        k = "fmri" ∨ k = "type" ∨ k = "predicate" ∨
          k = "variant.opensolaris.zone") ∧
    isErrB (parse_manifest "depend type=require fmri=pkg:/x extra=1") = true :=
  ⟨claim_C1.1 (Vals.mk [("fmri", "pkg:/x"), ("type", "require")]
      ["fmri", "type"])
    ⟨["pkg:/x"], .Require, [], none⟩ (by decide),
   claim_C1.2.1⟩

/-- C2: `parse_manifest` is all-or-nothing: a successful parse yields
exactly one action per input line, each line's action coming from that
line, and a failure of any single line makes the whole call fail. -/
theorem claim_C2 :
    (∀ (input : String) (l : List Action), parse_manifest input = .ok l →
        l.length = (rustLines input.data).length ∧
        ∀ (i : Nat) (lc : List Char), (rustLines input.data)[i]? = some lc →
          ∃ a, l[i]? = some a ∧ parseLineAction lc = .ok a) ∧
    (∀ (input : String) (lc : List Char), lc ∈ rustLines input.data →
        isErrB (parseLineAction lc) = true →
        isErrB (parse_manifest input) = true) := by
  constructor
  · intro input l h
    unfold parse_manifest at h
    refine ⟨mapExcept_ok_length _ _ _ h, ?_⟩
    intro i lc hlc
    exact mapExcept_ok_get _ _ _ h i lc hlc
  · intro input lc hmem herr
    exact mapExcept_mem_error parseLineAction _ lc hmem herr

theorem claim_C2_witness :
    ([Action.Unknown "a" [] ⟨[("b", "1")], ["b"]⟩] : List Action).length =
        (rustLines ("a b=1".data)).length ∧
    isErrB (parse_manifest "a b=1\n???") = true :=
  ⟨(claim_C2.1 "a b=1" [Action.Unknown "a" [] ⟨[("b", "1")], ["b"]⟩]
      (by decide)).1,
   claim_C2.2 "a b=1\n???" ("???".data) (by decide) (by decide)⟩

/-- C6: a value opened with a double or a single quote runs to the next
occurrence of that same quote character — the other quote character is
plain data inside it — and a backslash anywhere inside a quoted value
fails the line, and with it the whole manifest. -/
theorem claim_C6 :
    (∀ v : List Char, (∀ c ∈ v, c ≠ '\\' ∧ c ≠ '"') →
        parseLineAction ("x k=\"".data ++ v ++ ['"']) =
          .ok (.Unknown "x" [] ⟨[("k", String.mk v)], ["k"]⟩)) ∧
    (∀ v : List Char, (∀ c ∈ v, c ≠ '\\' ∧ c ≠ '\'') →
        parseLineAction ("x k=".data ++ '\'' :: v ++ ['\'']) =
          .ok (.Unknown "x" [] ⟨[("k", String.mk v)], ["k"]⟩)) ∧
    (∀ pre suf : List Char, (∀ c ∈ pre, c ≠ '\\' ∧ c ≠ '"') →
        isErrB (parseLineAction ("x k=\"".data ++ pre ++ '\\' :: suf)) =
          true) ∧
    isErrB (parse_manifest "a b=1\nx k=\"p\\q\"\nc d=2") = true := by
  refine ⟨?_, ?_, ?_, by decide⟩
  · intro v hv
    have hrun : runLine initSt ("x k=\"".data ++ v ++ ['"']) =
        .ok ⟨.ValueQuotedSpace, ['x'], ['k'], v, Vals.new, [], '"'⟩ := by
      rw [List.append_assoc, runLine_append]
      rw [show runLine initSt ("x k=\"".data) =
          .ok ⟨.ValueQuoted, ['x'], ['k'], [], Vals.new, [], '"'⟩ from rfl]
      show runLine ⟨.ValueQuoted, ['x'], ['k'], [], Vals.new, [], '"'⟩
          (v ++ ['"']) = _
      rw [runLine_append, runLine_quoted_accum v '"' hv]
      rfl
    unfold parseLineAction
    rw [hrun]
    rfl
  · intro v hv
    have hrun : runLine initSt ("x k=".data ++ '\'' :: v ++ ['\'']) =
        .ok ⟨.ValueQuotedSpace, ['x'], ['k'], v, Vals.new, [], '\''⟩ := by
      rw [List.append_assoc, runLine_append]
      rw [show runLine initSt ("x k=".data) =
          .ok ⟨.Value, ['x'], ['k'], [], Vals.new, [], '"'⟩ from rfl]
      show runLine ⟨.ValueQuoted, ['x'], ['k'], [], Vals.new, [], '\''⟩
          (v ++ ['\'']) = _
      rw [runLine_append, runLine_quoted_accum v '\'' hv]
      rfl
    unfold parseLineAction
    rw [hrun]
    rfl
  · intro pre suf hpre
    have hrun : runLine initSt ("x k=\"".data ++ pre ++ '\\' :: suf) =
        .error "invalid line (backslash)" := by
      rw [List.append_assoc, runLine_append]
      rw [show runLine initSt ("x k=\"".data) =
          .ok ⟨.ValueQuoted, ['x'], ['k'], [], Vals.new, [], '"'⟩ from rfl]
      show runLine ⟨.ValueQuoted, ['x'], ['k'], [], Vals.new, [], '"'⟩
          (pre ++ '\\' :: suf) = _
      rw [runLine_append, runLine_quoted_accum pre '"' hpre]
      rfl
    have hline : parseLineAction ("x k=\"".data ++ pre ++ '\\' :: suf) =
        .error "invalid line (backslash)" := by
      unfold parseLineAction
      rw [hrun]
    rw [hline]
    rfl

theorem claim_C6_witness :
    parseLineAction ("x k=\"".data ++ "ab cd".data ++ ['"']) =
      .ok (.Unknown "x" [] ⟨[("k", String.mk "ab cd".data)], ["k"]⟩) :=
  claim_C6.1 "ab cd".data (by decide)

/-- C7 (counterexample): contrary to the claim, a bare word as the final
token of a line is not accepted: `x foo` leaves the machine in the key
state, which the terminal-state match rejects, so the parse fails. -/
theorem claim_C7_counterexample : isErrB (parse_manifest "x foo") = true := by
  decide

/-- C7 (amended): a bare word followed by a space is collected as a free
token and not otherwise interpreted, wherever it appears before the last
key/value pair; but a bare word that ends the line leaves the machine in
the key state and fails the parse of the whole line. -/
theorem claim_C7 :
    (∀ w : List Char, (∀ c ∈ w, isKeyChar c = true) →
        parseLineAction ("x ".data ++ w ++ " k=1".data) =
          .ok (.Unknown "x" [String.mk w] ⟨[("k", "1")], ["k"]⟩)) ∧
    (∀ w : List Char, (∀ c ∈ w, isKeyChar c = true) →
        isErrB (parseLineAction ("x ".data ++ w)) = true) ∧
    parse_manifest "x foo bar=1" =
      .ok [.Unknown "x" ["foo"] ⟨[("bar", "1")], ["bar"]⟩] := by
  refine ⟨?_, ?_, by decide⟩
  · intro w hw
    have hrun : runLine initSt ("x ".data ++ w ++ " k=1".data) =
        .ok ⟨.ValueUnquoted, ['x'], ['k'], ['1'], Vals.new,
          [String.mk w], '"'⟩ := by
      rw [List.append_assoc, runLine_append]
      rw [show runLine initSt ("x ".data) =
          .ok ⟨.Key, ['x'], [], [], Vals.new, [], '"'⟩ from rfl]
      show runLine ⟨.Key, ['x'], [], [], Vals.new, [], '"'⟩
          (w ++ " k=1".data) = _
      rw [runLine_append, runLine_key_accum w hw]
      rfl
    unfold parseLineAction
    rw [hrun]
    rfl
  · intro w hw
    have hrun : runLine initSt ("x ".data ++ w) =
        .ok ⟨.Key, ['x'], w, [], Vals.new, [], '"'⟩ := by
      rw [runLine_append]
      rw [show runLine initSt ("x ".data) =
          .ok ⟨.Key, ['x'], [], [], Vals.new, [], '"'⟩ from rfl]
      show runLine ⟨.Key, ['x'], [], [], Vals.new, [], '"'⟩ w = _
      have := runLine_key_accum w hw ['x'] [] [] Vals.new [] '"'
      simpa using this
    have hline : parseLineAction ("x ".data ++ w) =
        .error "invalid line (terminal state)" := by
      unfold parseLineAction
      rw [hrun]
      rfl
    rw [hline]
    rfl

theorem claim_C7_witness :
    parseLineAction ("x ".data ++ "foo".data ++ " k=1".data) =
      .ok (.Unknown "x" [String.mk "foo".data] ⟨[("k", "1")], ["k"]⟩) :=
  claim_C7.1 "foo".data (by decide)

theorem waitStep_success_iff (p : PollResult) :
    waitStep p = .success ↔ ∃ t, p = .output ["ON" :: "-" :: t] := by
  cases p with
  | cmdErr => simp [waitStep]
  | output lines =>
      rcases lines with _ | ⟨t, rest⟩
      · simp [waitStep]
      rcases rest with _ | ⟨t2, rest2⟩
      · rcases t with _ | ⟨a, t'⟩
        · simp [waitStep, checkLine]
        rcases t' with _ | ⟨b, ts⟩
        · by_cases ha : a = "ON"
          · subst ha; simp [waitStep, checkLine]
          · simp [waitStep, checkLine, ha]
        · by_cases hab : (a == "ON" && b == "-") = true
          · have hab' := hab
            rw [Bool.and_eq_true, beq_iff_eq, beq_iff_eq] at hab'
            obtain ⟨ha, hb⟩ := hab'
            subst ha; subst hb
            simp [waitStep, checkLine]
          · rw [Bool.not_eq_true] at hab
            have hab' : ¬(a = "ON" ∧ b = "-") := by
              intro ⟨ha, hb⟩
              subst ha; subst hb
              simp at hab
            constructor
            · intro h
              simp [waitStep, checkLine, hab] at h
            · rintro ⟨t, ht⟩
              simp at ht
              exact absurd ⟨ht.1, ht.2.1⟩ hab'
      · simp [waitStep]

theorem waitRun_ok_events (tr : List PollResult) (evs : List WaitEvent)
    (h : waitRun tr = (some (.ok ()), evs)) :
    ∃ i p, tr[i]? = some p ∧ waitStep p = .success ∧
      (∀ j q, j < i → tr[j]? = some q → waitStep q = .retry) ∧
      evs = pollSleepEvents i ++ [.poll] := by
  induction tr generalizing evs with
  | nil => simp [waitRun] at h
  | cons p rest ih =>
      simp only [waitRun] at h
      cases hs : waitStep p with
      | success =>
          rw [hs] at h
          simp only [Prod.mk.injEq] at h
          refine ⟨0, p, by simp, hs, ?_, ?_⟩
          · intro j q hj
            exact absurd hj (Nat.not_lt_zero j)
          · rw [← h.2]
            simp [pollSleepEvents]
      | fatal e =>
          rw [hs] at h
          simp at h
      | retry =>
          rw [hs] at h
          simp only [Prod.mk.injEq] at h
          obtain ⟨h1, h2⟩ := h
          have hrest : waitRun rest = (some (.ok ()), (waitRun rest).2) := by
            rw [← h1]
          obtain ⟨i, p', hi, hsucc, hprev, hevs⟩ :=
            ih (waitRun rest).2 hrest
          refine ⟨i + 1, p', by simpa using hi, hsucc, ?_, ?_⟩
          · intro j q hj hq
            cases j with
            | zero =>
                simp at hq
                rw [← hq]
                exact hs
            | succ j' =>
                exact hprev j' q (by omega) (by simpa using hq)
          · rw [← h2, hevs]
            simp [pollSleepEvents]

theorem waitRun_unbounded (n : Nat) :
    waitRun (List.replicate n PollResult.cmdErr ++ [.output [["ON", "-"]]]) =
      (some (.ok ()), pollSleepEvents n ++ [.poll]) := by
  induction n with
  | zero => decide
  | succ n ih =>
      rw [List.replicate_succ, List.cons_append]
      show ((waitRun (List.replicate n PollResult.cmdErr ++
          [.output [["ON", "-"]]])).1,
        .poll :: .sleepSec 1 ::
          (waitRun (List.replicate n PollResult.cmdErr ++
            [.output [["ON", "-"]]])).2) = _
      rw [ih]
      simp [pollSleepEvents]

/-- C8: the wait loop of `zone_milestone_wait` returns success only when
its most recent poll reported exactly one status line with state `ON` and
next-state `-`; every unsuccessful poll before it was a retry followed by
a sleep of exactly one second; and the loop is unbounded — for every `n`
it still succeeds after `n` failed polls, each separated by the same
one-second sleep. -/
theorem claim_C8 :
    (∀ p, waitStep p = .success ↔ ∃ t, p = .output ["ON" :: "-" :: t]) ∧
    (∀ (tr : List PollResult) (evs : List WaitEvent),
        waitRun tr = (some (.ok ()), evs) →
        ∃ i p, tr[i]? = some p ∧ waitStep p = .success ∧
          (∀ j q, j < i → tr[j]? = some q → waitStep q = .retry) ∧
          evs = pollSleepEvents i ++ [.poll]) ∧
    (∀ n : Nat,
        waitRun (List.replicate n PollResult.cmdErr ++
            [.output [["ON", "-"]]]) =
          (some (.ok ()), pollSleepEvents n ++ [.poll])) :=
  ⟨waitStep_success_iff, waitRun_ok_events, waitRun_unbounded⟩

theorem claim_C8_witness :
    waitRun (List.replicate 2 PollResult.cmdErr ++ [.output [["ON", "-"]]]) =
      (some (.ok ()), pollSleepEvents 2 ++ [.poll]) :=
  claim_C8.2.2 2

end Helios
